import Mathlib

/-
Verification development for the pdf-chunker repository.

Shallow embedding of `src/pdf_chunker/core.py` and `src/pdf_chunker/images.py`:
pure data of the program (byte buffers, PDF name objects, page/image/font
dictionaries) is modelled with Lean inductive types, the external collaborators
(pikepdf serialization, the PIL codec) are modelled as function parameters, and
each Python function is translated into an executable Lean definition.
-/

namespace PdfChunker

/-- PDF name objects (`pikepdf.Name` values) that the code compares against. -/
inductive PName where
  | DCTDecode
  | FlateDecode
  | DeviceRGB
  | Type0
  | CIDFontType0
  | CIDFontType2
  | CIDFontType0C
  | Image
  | TrueType
  | Page
  | XObject
  | other (s : String)
deriving DecidableEq, Repr

/-- PIL pixel modes that `optimize_image` inspects (`pil_image.mode`). -/
inductive PixelMode where
  | RGB
  | CMYK
  | RGBA
  | P
  | LA
  | L
  | other (s : String)
deriving DecidableEq, Repr

/-- Index of the first occurrence of the byte pair `0xFF 0xEE`
(`jpeg_data.find(b"\xff\xee")` in `has_adobe_app14_marker`,
`src/pdf_chunker/images.py` line 193); `none` models Python's `-1`. -/
def findAdobeMarker : List Nat → Option Nat
  | [] => none
  | [_] => none
  | a :: b :: rest =>
    if a = 0xff ∧ b = 0xee then some 0
    else (findAdobeMarker (b :: rest)).map (fun n => n + 1)

/-- The ASCII bytes of the literal `b"Adobe"`. -/
def adobeSig : List Nat := [0x41, 0x64, 0x6f, 0x62, 0x65]

/-- `has_adobe_app14_marker` (`src/pdf_chunker/images.py` lines 191-200).
Python slice `jpeg_data[start : start + 5]` is `(drop start).take 5` (a slice
past the end of the buffer is short, so it compares unequal to `b"Adobe"`);
the transform byte is `jpeg_data[start + 11]` guarded by
`len(jpeg_data) > start + 11`, else `None`. -/
def has_adobe_app14_marker (jpeg_data : List Nat) : Bool × Option Nat :=
  match findAdobeMarker jpeg_data with
  | none => (false, none)
  | some idx =>
    let start := idx + 4
    if (jpeg_data.drop start).take 5 = adobeSig then
      (true,
        if start + 11 < jpeg_data.length then some (jpeg_data.getD (start + 11) 0)
        else none)
    else
      (false, none)

/-- An image XObject as the code sees it: the `/Filter`, `/ColorSpace`,
`/BitsPerComponent`, `/Decode`, `/DecodeParms` entries of the dictionary, the
raw compressed bytes (`read_raw_bytes`), and the decoded PIL view
(`as_pil_image().mode`, `.width`, `.height`, `icc_profile`).  `fails` models
"the PIL decode/encode of this resource raises an exception" — the
per-resource failure that `process_page_images` catches. -/
structure ImgObj where
  filter : Option PName
  raw_data : List Nat
  mode : PixelMode
  width : Nat
  height : Nat
  icc_profile : Option (List Nat)
  colorSpace : Option PName
  bitsPerComponent : Nat
  decodePresent : Bool
  decodeParmsPresent : Bool
  fails : Bool
deriving DecidableEq, Repr

/-- `needs_inversion` (`src/pdf_chunker/images.py` lines 203-208).
`transform in (0, 2)` is false when `transform` is Python `None`. -/
def needs_inversion (img : ImgObj) : Bool :=
  if img.filter ≠ some PName.DCTDecode then false
  else
    let r := has_adobe_app14_marker img.raw_data
    r.1 && decide (r.2 = some 0 ∨ r.2 = some 2)

/-
IEEE binary64 model for the resize arithmetic.

Python computes `scale = max_dim / max(width, height)` and
`int(width * scale)` in IEEE-754 binary64: the division and the
multiplication each round their exact value to 53 significant bits
(round-to-nearest, ties-to-even), and `int` truncates toward zero.  For the
positive, normal-range values that pixel-dimension ratios produce (no
overflow, underflow, infinities or NaNs), a binary64 operation returns
exactly the 53-bit rounding of the exact rational result, so the model below
computes on exact rationals: `fl64` is the 53-bit round-to-nearest-even
rounding, and `pyScaledDim w max_dim m` is `int(w * fl64 (max_dim / m))`.
-/

/-- Fuel-based binary logarithm: `log2aux fuel n` is the floor of log2 of
`n` whenever `1 ≤ n ≤ fuel` (structural recursion so that it evaluates). -/
def log2aux : Nat → Nat → Nat
  | 0, _ => 0
  | fuel + 1, n => if n ≤ 1 then 0 else log2aux fuel (n / 2) + 1

/-- Floor of the binary logarithm of a positive natural number. -/
def natLog2 (n : Nat) : Nat := log2aux n n

theorem log2aux_correct :
    ∀ (fuel n : Nat), 1 ≤ n → n ≤ fuel →
      2 ^ log2aux fuel n ≤ n ∧ n < 2 ^ (log2aux fuel n + 1) := by
  intro fuel
  induction fuel with
  | zero => intro n h1 h2; omega
  | succ f ih =>
    intro n h1 h2
    by_cases hn : n ≤ 1
    · have hn1 : n = 1 := by omega
      subst hn1
      simp [log2aux]
    · have hh : 1 ≤ n / 2 := by omega
      have hle : n / 2 ≤ f := by omega
      obtain ⟨ha, hb⟩ := ih (n / 2) hh hle
      simp only [log2aux, if_neg hn]
      have e1 : 2 ^ (log2aux f (n / 2) + 1) = 2 * 2 ^ log2aux f (n / 2) := by ring
      have e2 : 2 ^ (log2aux f (n / 2) + 1 + 1) = 2 * 2 ^ (log2aux f (n / 2) + 1) := by ring
      constructor
      · rw [e1]; omega
      · rw [e2]; omega

theorem natLog2_correct (n : Nat) (h : 1 ≤ n) :
    2 ^ natLog2 n ≤ n ∧ n < 2 ^ (natLog2 n + 1) :=
  log2aux_correct n n h le_rfl

/-- The binary exponent of a positive rational: the unique `e` with
`2 ^ e ≤ q < 2 ^ (e + 1)` (junk value for `q ≤ 0`). -/
def ratExp (q : ℚ) : ℤ :=
  if q.den ≤ q.num.toNat then (natLog2 (q.num.toNat / q.den) : ℤ)
  else -((natLog2 ((q.den - 1) / q.num.toNat) : ℤ) + 1)

theorem ratExp_aux1 (a b : Nat) (h0b : 0 < b) (hab : b ≤ a) :
    (2:ℚ) ^ ((natLog2 (a / b) : ℤ)) ≤ (a:ℚ) / (b:ℚ) ∧
      (a:ℚ) / (b:ℚ) < (2:ℚ) ^ ((natLog2 (a / b) : ℤ) + 1) := by
  have h1 : 1 ≤ a / b := (Nat.one_le_div_iff h0b).mpr hab
  obtain ⟨hl, hr⟩ := natLog2_correct (a / b) h1
  have hbQ : (0:ℚ) < (b:ℚ) := by exact_mod_cast h0b
  have N1 : 2 ^ natLog2 (a / b) * b ≤ a := (Nat.le_div_iff_mul_le h0b).mp hl
  have N2 : a < 2 ^ (natLog2 (a / b) + 1) * b := (Nat.div_lt_iff_lt_mul h0b).mp hr
  constructor
  · rw [zpow_natCast, le_div_iff₀ hbQ]
    exact_mod_cast N1
  · rw [show ((natLog2 (a / b) : ℤ) + 1) = ((natLog2 (a / b) + 1 : ℕ) : ℤ) by push_cast; ring]
    rw [zpow_natCast, div_lt_iff₀ hbQ]
    exact_mod_cast N2

theorem ratExp_aux2 (a b : Nat) (h0a : 0 < a) (h0b : 0 < b) (hab : a < b) :
    (2:ℚ) ^ (-((natLog2 ((b - 1) / a) : ℤ) + 1)) ≤ (a:ℚ) / (b:ℚ) ∧
      (a:ℚ) / (b:ℚ) < (2:ℚ) ^ (-((natLog2 ((b - 1) / a) : ℤ) + 1) + 1) := by
  have h1 : 1 ≤ (b - 1) / a := (Nat.one_le_div_iff h0a).mpr (by omega)
  obtain ⟨hl, hr⟩ := natLog2_correct ((b - 1) / a) h1
  have N1 : 2 ^ natLog2 ((b - 1) / a) * a ≤ b - 1 := (Nat.le_div_iff_mul_le h0a).mp hl
  have N2 : b - 1 < 2 ^ (natLog2 ((b - 1) / a) + 1) * a := (Nat.div_lt_iff_lt_mul h0a).mp hr
  have N1a : 2 ^ natLog2 ((b - 1) / a) * a < b := by omega
  have N2a : b ≤ 2 ^ (natLog2 ((b - 1) / a) + 1) * a := by omega
  have haQ : (0:ℚ) < (a:ℚ) := by exact_mod_cast h0a
  have hbQ : (0:ℚ) < (b:ℚ) := by exact_mod_cast h0b
  constructor
  · have he : (2:ℚ) ^ (-((natLog2 ((b - 1) / a) : ℤ) + 1)) =
        1 / (2:ℚ) ^ (natLog2 ((b - 1) / a) + 1) := by
      rw [zpow_neg, one_div]
      rw [show ((natLog2 ((b - 1) / a) : ℤ) + 1) = ((natLog2 ((b - 1) / a) + 1 : ℕ) : ℤ) by
        push_cast; ring]
      rw [zpow_natCast]
    rw [he, div_le_div_iff₀ (by positivity) hbQ, one_mul]
    calc (b:ℚ) ≤ ((2 ^ (natLog2 ((b - 1) / a) + 1) * a : ℕ) : ℚ) := by exact_mod_cast N2a
      _ = (a:ℚ) * (2:ℚ) ^ (natLog2 ((b - 1) / a) + 1) := by
          push_cast
          ring
  · have he : (2:ℚ) ^ (-((natLog2 ((b - 1) / a) : ℤ) + 1) + 1) =
        1 / (2:ℚ) ^ natLog2 ((b - 1) / a) := by
      rw [show (-((natLog2 ((b - 1) / a) : ℤ) + 1) + 1) = -(natLog2 ((b - 1) / a) : ℤ) by ring]
      rw [zpow_neg, one_div, zpow_natCast]
    rw [he, div_lt_div_iff₀ hbQ (by positivity), one_mul]
    have hcast : (a:ℚ) * (2:ℚ) ^ natLog2 ((b - 1) / a) = ((2 ^ natLog2 ((b - 1) / a) * a : ℕ) : ℚ) := by
      push_cast
      ring
    rw [hcast]
    exact_mod_cast N1a

theorem ratExp_correct (q : ℚ) (hq : 0 < q) :
    (2 : ℚ) ^ ratExp q ≤ q ∧ q < (2 : ℚ) ^ (ratExp q + 1) := by
  have hnum : 0 < q.num := Rat.num_pos.mpr hq
  have hden : 0 < q.den := q.den_pos
  have h0a : 0 < q.num.toNat := by omega
  have hq_eq : (q.num.toNat : ℚ) / (q.den : ℚ) = q := by
    have h1 : ((q.num.toNat : ℤ) : ℚ) = (q.num : ℚ) := by
      rw [Int.toNat_of_nonneg hnum.le]
    push_cast at h1
    rw [h1]
    exact Rat.num_div_den q
  rw [ratExp]
  by_cases hab : q.den ≤ q.num.toNat
  · rw [if_pos hab]
    have h := ratExp_aux1 q.num.toNat q.den hden hab
    rw [hq_eq] at h
    exact h
  · rw [if_neg hab]
    have h := ratExp_aux2 q.num.toNat q.den h0a hden (by omega)
    rw [hq_eq] at h
    exact h

/-- Floor of a rational, computed on the numerator/denominator pair. -/
def ratFloor (x : ℚ) : ℤ := x.num / x.den

theorem ratFloor_eq_floor (x : ℚ) : ratFloor x = ⌊x⌋ := by
  rw [Rat.floor_def]
  rfl

/-- Round a rational to the nearest integer, ties to the even integer —
IEEE-754's default rounding applied to the scaled significand. -/
def roundNearestEven (x : ℚ) : ℤ :=
  if x - ratFloor x < 1 / 2 then ratFloor x
  else if 1 / 2 < x - ratFloor x then ratFloor x + 1
  else if ratFloor x % 2 = 0 then ratFloor x else ratFloor x + 1

theorem roundNearestEven_abs (x : ℚ) : |(roundNearestEven x : ℚ) - x| ≤ 1 / 2 := by
  have h1 : ((ratFloor x : ℤ) : ℚ) ≤ x := by
    rw [ratFloor_eq_floor]; exact Int.floor_le x
  have h2 : x < ((ratFloor x : ℤ) : ℚ) + 1 := by
    rw [ratFloor_eq_floor]; exact Int.lt_floor_add_one x
  rw [roundNearestEven]
  split_ifs with ha hb hc <;>
    (rw [abs_le]; push_cast; constructor <;> linarith)

/-- Rounding of an exact positive rational to IEEE binary64: the significand
`q / 2 ^ (e - 52)` (in `[2^52, 2^53)`) is rounded to the nearest integer,
ties to even, and scaled back.  Overflow/underflow do not occur for the
pixel-ratio magnitudes this model is used at; `q ≤ 0` returns `0`. -/
def fl64 (q : ℚ) : ℚ :=
  if q ≤ 0 then 0
  else (roundNearestEven (q / 2 ^ (ratExp q - 52)) : ℚ) * 2 ^ (ratExp q - 52)

theorem fl64_bounds (q : ℚ) (hq : 0 < q) :
    q - q / 2 ^ 53 ≤ fl64 q ∧ fl64 q ≤ q + q / 2 ^ 53 := by
  rw [fl64, if_neg (not_le.mpr hq)]
  have h2e : (0:ℚ) < 2 ^ (ratExp q - 52) := zpow_pos (by norm_num) _
  have hr := roundNearestEven_abs (q / 2 ^ (ratExp q - 52))
  have heq : (roundNearestEven (q / 2 ^ (ratExp q - 52)) : ℚ) * 2 ^ (ratExp q - 52) - q
      = ((roundNearestEven (q / 2 ^ (ratExp q - 52)) : ℚ) - q / 2 ^ (ratExp q - 52))
        * 2 ^ (ratExp q - 52) := by
    field_simp
  have key : |(roundNearestEven (q / 2 ^ (ratExp q - 52)) : ℚ) * 2 ^ (ratExp q - 52) - q|
      ≤ 2 ^ (ratExp q - 52) / 2 := by
    rw [heq, abs_mul, abs_of_pos h2e]
    calc |(roundNearestEven (q / 2 ^ (ratExp q - 52)) : ℚ) - q / 2 ^ (ratExp q - 52)|
          * 2 ^ (ratExp q - 52)
        ≤ 1 / 2 * 2 ^ (ratExp q - 52) := mul_le_mul_of_nonneg_right hr h2e.le
      _ = 2 ^ (ratExp q - 52) / 2 := by ring
  have hpow : ((2:ℚ) ^ (52:ℤ)) * 2 = 2 ^ (53:ℕ) := by norm_num
  have hexp : (2:ℚ) ^ (ratExp q - 52) / 2 ≤ q / 2 ^ (53:ℕ) := by
    have h1 : (2:ℚ) ^ ratExp q ≤ q := (ratExp_correct q hq).1
    have heq2 : (2:ℚ) ^ (ratExp q - 52) / 2 = (2:ℚ) ^ ratExp q / 2 ^ (53:ℕ) := by
      rw [zpow_sub₀ (by norm_num : (2:ℚ) ≠ 0), div_div, hpow]
    rw [heq2]
    exact (div_le_div_iff_of_pos_right (by positivity)).mpr h1
  have habs := le_trans key hexp
  rw [abs_le] at habs
  constructor <;> linarith [habs.1, habs.2]

theorem fl64_pos (q : ℚ) (hq : 0 < q) : 0 < fl64 q := by
  have h := (fl64_bounds q hq).1
  have h2 : q / 2 ^ 53 < q := div_lt_self hq (by norm_num)
  linarith



theorem roundNearestEven_natCast (n : ℕ) : roundNearestEven ((n : ℕ) : ℚ) = (n : ℤ) := by
  have hfl : ratFloor ((n : ℕ) : ℚ) = (n : ℤ) := by
    rw [ratFloor_eq_floor]
    exact Int.floor_natCast n
  rw [roundNearestEven, hfl]
  have hz : ((n : ℕ) : ℚ) - ((n : ℤ) : ℚ) = 0 := by push_cast; ring
  rw [hz]
  norm_num

theorem fl64_dyadic (k j : Nat) (hk : 0 < k) (hlt : k < 2 ^ 53) :
    fl64 ((k : ℚ) / 2 ^ j) = (k : ℚ) / 2 ^ j := by
  have hkQ : (0:ℚ) < (k:ℚ) := by exact_mod_cast hk
  have hq : (0:ℚ) < (k : ℚ) / 2 ^ j := by positivity
  obtain ⟨hl, hr⟩ := ratExp_correct ((k : ℚ) / 2 ^ j) hq
  have hej : ratExp ((k : ℚ) / 2 ^ j) + (j:ℤ) ≤ 52 := by
    by_contra hcon
    push_neg at hcon
    have h53 : (53:ℤ) ≤ ratExp ((k : ℚ) / 2 ^ j) + (j:ℤ) := by omega
    have h1 : (2:ℚ) ^ (53:ℤ) ≤ 2 ^ (ratExp ((k : ℚ) / 2 ^ j) + (j:ℤ)) :=
      zpow_le_zpow_right₀ (by norm_num) h53
    have h2 : (2:ℚ) ^ (ratExp ((k : ℚ) / 2 ^ j) + (j:ℤ)) =
        2 ^ ratExp ((k : ℚ) / 2 ^ j) * 2 ^ ((j:ℕ):ℤ) := zpow_add₀ (by norm_num) _ _
    have h3 : (2:ℚ) ^ ratExp ((k : ℚ) / 2 ^ j) * 2 ^ ((j:ℕ):ℤ) ≤
        ((k : ℚ) / 2 ^ j) * 2 ^ ((j:ℕ):ℤ) :=
      mul_le_mul_of_nonneg_right hl (by positivity)
    have h4 : ((k : ℚ) / 2 ^ j) * 2 ^ ((j:ℕ):ℤ) = (k:ℚ) := by
      rw [zpow_natCast]
      field_simp
    have h5 : (k:ℚ) < (2:ℚ) ^ (53:ℕ) := by exact_mod_cast hlt
    have h6 : (2:ℚ) ^ (53:ℤ) = (2:ℚ) ^ (53:ℕ) := by norm_num
    rw [h2] at h1
    rw [h4] at h3
    linarith
  have hnn : (0:ℤ) ≤ 52 - ratExp ((k : ℚ) / 2 ^ j) - (j:ℤ) := by omega
  set E : ℤ := ratExp ((k : ℚ) / 2 ^ j) with hE
  have hx : ((k : ℚ) / 2 ^ j) / 2 ^ (E - 52) =
      ((k * 2 ^ ((52 - E - (j:ℤ)).toNat) : ℕ) : ℚ) := by
    have e1 : ((k : ℚ) / 2 ^ j) / 2 ^ (E - 52) = (k:ℚ) * 2 ^ (52 - E - (j:ℤ)) := by
      rw [show ((2:ℚ) ^ j) = (2:ℚ) ^ ((j:ℕ):ℤ) from (zpow_natCast 2 j).symm]
      rw [div_div, ← zpow_add₀ (by norm_num : (2:ℚ) ≠ 0), div_eq_mul_inv, ← zpow_neg]
      have eexp : (-((j:ℤ) + (E - 52))) = 52 - E - (j:ℤ) := by ring
      rw [eexp]
    rw [e1]
    have e2 : (52 - E - (j:ℤ)) = (((52 - E - (j:ℤ)).toNat : ℕ) : ℤ) :=
      (Int.toNat_of_nonneg hnn).symm
    rw [e2, zpow_natCast]
    push_cast
    simp only [Int.toNat_natCast]
  have hpow_ne : ((2:ℚ) ^ (E - 52)) ≠ 0 := ne_of_gt (zpow_pos (by norm_num) _)
  rw [fl64, if_neg (not_le.mpr hq), ← hE, hx, roundNearestEven_natCast]
  calc (((k * 2 ^ ((52 - E - (j:ℤ)).toNat) : ℕ) : ℤ) : ℚ) * 2 ^ (E - 52)
      = ((k * 2 ^ ((52 - E - (j:ℤ)).toNat) : ℕ) : ℚ) * 2 ^ (E - 52) := by
        push_cast
        ring
    _ = (((k : ℚ) / 2 ^ j) / 2 ^ (E - 52)) * 2 ^ (E - 52) := by rw [hx]
    _ = (k : ℚ) / 2 ^ j := div_mul_cancel₀ _ hpow_ne

/-- Python `int()` truncation toward zero of a nonnegative rational. -/
def pyTrunc (q : ℚ) : Nat := q.num.toNat / q.den

theorem pyTrunc_le (q : ℚ) (hq : 0 ≤ q) :
    (pyTrunc q : ℚ) ≤ q ∧ q < (pyTrunc q : ℚ) + 1 := by
  have hnum : 0 ≤ q.num := Rat.num_nonneg.mpr hq
  have hfl : ((pyTrunc q : ℕ) : ℤ) = ⌊q⌋ := by
    have h1 : ((q.num.toNat / q.den : ℕ) : ℤ) = (q.num.toNat : ℤ) / (q.den : ℤ) :=
      Int.ofNat_ediv _ _
    have h2 : ((q.num.toNat : ℤ)) = q.num := Int.toNat_of_nonneg hnum
    show ((q.num.toNat / q.den : ℕ) : ℤ) = ⌊q⌋
    rw [h1, h2, Rat.floor_def]
  constructor
  · have h := Int.floor_le q
    rw [← hfl] at h
    exact_mod_cast h
  · have h := Int.lt_floor_add_one q
    rw [← hfl] at h
    exact_mod_cast h

theorem pyTrunc_eq (q : ℚ) (n : ℕ) (hq : 0 ≤ q) (h1 : (n:ℚ) ≤ q) (h2 : q < (n:ℚ) + 1) :
    pyTrunc q = n := by
  obtain ⟨ha, hb⟩ := pyTrunc_le q hq
  have c1 : (pyTrunc q : ℚ) < (n:ℚ) + 1 := lt_of_le_of_lt ha h2
  have c2 : (n:ℚ) < (pyTrunc q : ℚ) + 1 := lt_of_le_of_lt h1 hb
  have d1 : pyTrunc q < n + 1 := by exact_mod_cast c1
  have d2 : n < pyTrunc q + 1 := by exact_mod_cast c2
  omega

/-- One resized dimension as the Python code computes it:
`int(w * (max_dim / m))` with the division and multiplication each rounded
to binary64 (`src/pdf_chunker/images.py` lines 154-155). -/
def pyScaledDim (w max_dim m : Nat) : Nat :=
  pyTrunc (fl64 ((w : ℚ) * fl64 ((max_dim : ℚ) / (m : ℚ))))

theorem pyFloat_close (w d m : Nat) (hw : 0 < w) (hm : 0 < m) (hd : 0 < d)
    (hwm : w ≤ m) (hrange : d ≤ 2 ^ 51) :
    0 < fl64 ((w:ℚ) * fl64 ((d:ℚ) / (m:ℚ))) ∧
    (w:ℚ) * (d:ℚ) / (m:ℚ) - 1 < fl64 ((w:ℚ) * fl64 ((d:ℚ) / (m:ℚ))) ∧
    fl64 ((w:ℚ) * fl64 ((d:ℚ) / (m:ℚ))) < (w:ℚ) * (d:ℚ) / (m:ℚ) + 1 := by
  have hwQ : (0:ℚ) < w := by exact_mod_cast hw
  have hmQ : (0:ℚ) < m := by exact_mod_cast hm
  have hdQ : (0:ℚ) < d := by exact_mod_cast hd
  have hdm : (0:ℚ) < (d:ℚ) / (m:ℚ) := div_pos hdQ hmQ
  obtain ⟨hs1, hs2⟩ := fl64_bounds ((d:ℚ) / (m:ℚ)) hdm
  have hspos : 0 < fl64 ((d:ℚ) / (m:ℚ)) := fl64_pos _ hdm
  have hwsp : 0 < (w:ℚ) * fl64 ((d:ℚ) / (m:ℚ)) := mul_pos hwQ hspos
  obtain ⟨ht1, ht2⟩ := fl64_bounds _ hwsp
  have htpos : 0 < fl64 ((w:ℚ) * fl64 ((d:ℚ) / (m:ℚ))) := fl64_pos _ hwsp
  have hws_ub : (w:ℚ) * fl64 ((d:ℚ) / (m:ℚ)) ≤
      (w:ℚ) * (d:ℚ) / (m:ℚ) + ((w:ℚ) * (d:ℚ) / (m:ℚ)) / 2 ^ 53 := by
    have h1 := mul_le_mul_of_nonneg_left hs2 hwQ.le
    have h2 : (w:ℚ) * ((d:ℚ) / (m:ℚ) + ((d:ℚ) / (m:ℚ)) / 2 ^ 53) =
        (w:ℚ) * (d:ℚ) / (m:ℚ) + ((w:ℚ) * (d:ℚ) / (m:ℚ)) / 2 ^ 53 := by ring
    linarith
  have hws_lb : (w:ℚ) * (d:ℚ) / (m:ℚ) - ((w:ℚ) * (d:ℚ) / (m:ℚ)) / 2 ^ 53 ≤
      (w:ℚ) * fl64 ((d:ℚ) / (m:ℚ)) := by
    have h1 := mul_le_mul_of_nonneg_left hs1 hwQ.le
    have h2 : (w:ℚ) * ((d:ℚ) / (m:ℚ) - ((d:ℚ) / (m:ℚ)) / 2 ^ 53) =
        (w:ℚ) * (d:ℚ) / (m:ℚ) - ((w:ℚ) * (d:ℚ) / (m:ℚ)) / 2 ^ 53 := by ring
    linarith
  have hv_le : (w:ℚ) * (d:ℚ) / (m:ℚ) ≤ (2:ℚ) ^ 51 := by
    have h1 : (w:ℚ) * (d:ℚ) / (m:ℚ) ≤ (d:ℚ) := by
      rw [div_le_iff₀ hmQ]
      have hwm2 : (w:ℚ) ≤ (m:ℚ) := by exact_mod_cast hwm
      nlinarith
    have h2 : (d:ℚ) ≤ 2 ^ 51 := by exact_mod_cast hrange
    linarith
  have hv_pos : (0:ℚ) < (w:ℚ) * (d:ℚ) / (m:ℚ) := by positivity
  have hm1 : ((w:ℚ) * fl64 ((d:ℚ) / (m:ℚ))) / 2 ^ 53 ≤
      ((w:ℚ) * (d:ℚ) / (m:ℚ) + ((w:ℚ) * (d:ℚ) / (m:ℚ)) / 2 ^ 53) / 2 ^ 53 :=
    (div_le_div_iff_of_pos_right (by norm_num)).mpr hws_ub
  have hsum_le : 2 * ((w:ℚ) * (d:ℚ) / (m:ℚ)) / 2 ^ 53 + ((w:ℚ) * (d:ℚ) / (m:ℚ)) / 2 ^ 106 ≤
      2 * (2:ℚ) ^ 51 / 2 ^ 53 + (2:ℚ) ^ 51 / 2 ^ 106 := by
    have b1 : 2 * ((w:ℚ) * (d:ℚ) / (m:ℚ)) / 2 ^ 53 ≤ 2 * (2:ℚ) ^ 51 / 2 ^ 53 := by
      apply (div_le_div_iff_of_pos_right (by norm_num)).mpr
      linarith
    have b2 : ((w:ℚ) * (d:ℚ) / (m:ℚ)) / 2 ^ 106 ≤ (2:ℚ) ^ 51 / 2 ^ 106 :=
      (div_le_div_iff_of_pos_right (by norm_num)).mpr hv_le
    linarith
  have hnum : 2 * (2:ℚ) ^ 51 / 2 ^ 53 + (2:ℚ) ^ 51 / 2 ^ 106 < 1 := by norm_num
  refine ⟨htpos, ?_, ?_⟩
  · have e1 : ((w:ℚ) * (d:ℚ) / (m:ℚ) - ((w:ℚ) * (d:ℚ) / (m:ℚ)) / 2 ^ 53) -
        ((w:ℚ) * (d:ℚ) / (m:ℚ) + ((w:ℚ) * (d:ℚ) / (m:ℚ)) / 2 ^ 53) / 2 ^ 53 =
        (w:ℚ) * (d:ℚ) / (m:ℚ) -
          (2 * ((w:ℚ) * (d:ℚ) / (m:ℚ)) / 2 ^ 53 + ((w:ℚ) * (d:ℚ) / (m:ℚ)) / 2 ^ 106) := by
      ring
    linarith
  · have e1 : ((w:ℚ) * (d:ℚ) / (m:ℚ) + ((w:ℚ) * (d:ℚ) / (m:ℚ)) / 2 ^ 53) +
        ((w:ℚ) * (d:ℚ) / (m:ℚ) + ((w:ℚ) * (d:ℚ) / (m:ℚ)) / 2 ^ 53) / 2 ^ 53 =
        (w:ℚ) * (d:ℚ) / (m:ℚ) +
          (2 * ((w:ℚ) * (d:ℚ) / (m:ℚ)) / 2 ^ 53 + ((w:ℚ) * (d:ℚ) / (m:ℚ)) / 2 ^ 106) := by
      ring
    linarith



/-- Floor division undershoots by less than one divisor: `a < (a / b + 1) * b`. -/
theorem div_succ_mul_gt (a b : Nat) (hb : 0 < b) : a < (a / b + 1) * b := by
  calc a = b * (a / b) + a % b := (Nat.div_add_mod a b).symm
    _ < b * (a / b) + b := Nat.add_lt_add_left (Nat.mod_lt a hb) _
    _ = (a / b + 1) * b := by ring

/-- A zero-width image scales to zero width. -/
theorem pyScaledDim_zero_w (d m : Nat) : pyScaledDim 0 d m = 0 := by
  unfold pyScaledDim
  rw [Nat.cast_zero, zero_mul]
  have hfl0 : fl64 0 = 0 := by
    rw [fl64, if_pos le_rfl]
  rw [hfl0]
  unfold pyTrunc
  rw [Rat.num_eq_zero.mpr rfl]
  simp

theorem pyScaledDim_bounds (w d m : Nat) (hm : 0 < m) (hd : 0 < d)
    (hwm : w ≤ m) (hrange : d ≤ 2 ^ 51) :
    w * d / m ≤ pyScaledDim w d m + 1 ∧ pyScaledDim w d m ≤ w * d / m + 1 := by
  rcases Nat.eq_zero_or_pos w with hw | hw
  · subst hw
    rw [pyScaledDim_zero_w, Nat.zero_mul, Nat.zero_div]
    omega
  obtain ⟨htpos, hlb, hub⟩ := pyFloat_close w d m hw hm hd hwm hrange
  obtain ⟨ha, hb⟩ := pyTrunc_le _ htpos.le
  have hmQ : (0:ℚ) < (m:ℚ) := by exact_mod_cast hm
  have hF1 : ((w * d / m : ℕ) : ℚ) ≤ (w:ℚ) * (d:ℚ) / (m:ℚ) := by
    rw [le_div_iff₀ hmQ]
    calc ((w * d / m : ℕ) : ℚ) * m = ((w * d / m * m : ℕ) : ℚ) := by push_cast; ring
      _ ≤ ((w * d : ℕ) : ℚ) := by exact_mod_cast Nat.div_mul_le_self (w * d) m
      _ = (w:ℚ) * d := by push_cast; ring
  have hF2 : (w:ℚ) * (d:ℚ) / (m:ℚ) < ((w * d / m : ℕ) : ℚ) + 1 := by
    rw [div_lt_iff₀ hmQ]
    have hgt := div_succ_mul_gt (w * d) m hm
    calc (w:ℚ) * d = ((w * d : ℕ) : ℚ) := by push_cast; ring
      _ < (((w * d / m + 1) * m : ℕ) : ℚ) := by exact_mod_cast hgt
      _ = (((w * d / m : ℕ) : ℚ) + 1) * m := by push_cast; ring
  unfold pyScaledDim
  constructor
  · have c1 : ((w * d / m : ℕ) : ℚ) <
        (pyTrunc (fl64 ((w:ℚ) * fl64 ((d:ℚ) / (m:ℚ)))) : ℚ) + 2 := by linarith
    have c2 : (w * d / m : ℕ) < pyTrunc (fl64 ((w:ℚ) * fl64 ((d:ℚ) / (m:ℚ)))) + 2 := by
      exact_mod_cast c1
    omega
  · have c1 : (pyTrunc (fl64 ((w:ℚ) * fl64 ((d:ℚ) / (m:ℚ)))) : ℚ) <
        ((w * d / m : ℕ) : ℚ) + 2 := by linarith
    have c2 : pyTrunc (fl64 ((w:ℚ) * fl64 ((d:ℚ) / (m:ℚ)))) < (w * d / m : ℕ) + 2 := by
      exact_mod_cast c1
    omega

theorem pyScaledDim_longer (d m : Nat) (hm : 0 < m) (hd : 0 < d) (hrange : d ≤ 2 ^ 51) :
    pyScaledDim m d m = d ∨ pyScaledDim m d m = d - 1 := by
  obtain ⟨htpos, hlb, hub⟩ := pyFloat_close m d m hm hm hd le_rfl hrange
  obtain ⟨ha, hb⟩ := pyTrunc_le _ htpos.le
  have hmQ : (0:ℚ) < (m:ℚ) := by exact_mod_cast hm
  have hveq : (m:ℚ) * (d:ℚ) / (m:ℚ) = (d:ℚ) := by
    field_simp
  rw [hveq] at hlb hub
  unfold pyScaledDim
  have c1 : (pyTrunc (fl64 ((m:ℚ) * fl64 ((d:ℚ) / (m:ℚ)))) : ℚ) < (d:ℚ) + 1 := by linarith
  have c2 : (d:ℚ) < (pyTrunc (fl64 ((m:ℚ) * fl64 ((d:ℚ) / (m:ℚ)))) : ℚ) + 2 := by linarith
  have d1 : pyTrunc (fl64 ((m:ℚ) * fl64 ((d:ℚ) / (m:ℚ)))) < d + 1 := by exact_mod_cast c1
  have d2 : d < pyTrunc (fl64 ((m:ℚ) * fl64 ((d:ℚ) / (m:ℚ)))) + 2 := by exact_mod_cast c2
  omega


/-- The external PIL codec (`pil_image.save(..., format="JPEG", ...)`): the
JPEG encoder is an arbitrary function of the pixel buffer summary we track
(mode, width, height), the quality, the `subsampling=0` flag (used only for
CMYK-mode saves), and the preserved ICC profile. -/
structure Codec where
  encodeJPEG : PixelMode → Nat → Nat → Nat → Bool → Option (List Nat) → List Nat

/-- `optimize_image` (`src/pdf_chunker/images.py` lines 129-188).

The decoded PIL buffer is tracked through its `(mode, width, height)` summary;
pixel-level operations (`point(lambda x: 255 - x)`, compositing on white) do
not change that summary.  The resize `scale = max_dim / max(width, height)`;
`new_size = (int(width * scale), int(height * scale))` is a Python binary64
float computation — two IEEE roundings then truncation toward zero — embedded
exactly by `pyScaledDim` (see the binary64 model above).
`if max_dim and ...` is Python truthiness: `max_dim ≠ 0`. -/
def optimize_image (codec : Codec) (img : ImgObj) (quality max_dim : Nat) :
    List Nat × Nat × Nat × PixelMode :=
  let raw_data := img.raw_data
  let current_filter := img.filter
  let _adobe := has_adobe_app14_marker raw_data
  let mode0 := img.mode
  let _inv := if mode0 = PixelMode.CMYK then needs_inversion img else false
  let mode1 := if mode0 = PixelMode.CMYK then PixelMode.RGB else mode0
  let modified1 := if mode0 = PixelMode.CMYK then true else false
  let m := max img.width img.height
  let width1 := if max_dim ≠ 0 ∧ max_dim < m then pyScaledDim img.width max_dim m else img.width
  let height1 := if max_dim ≠ 0 ∧ max_dim < m then pyScaledDim img.height max_dim m else img.height
  let modified2 := if max_dim ≠ 0 ∧ max_dim < m then true else modified1
  let flatten := mode1 = PixelMode.RGBA ∨ mode1 = PixelMode.P ∨ mode1 = PixelMode.LA
  let coerce := mode1 ≠ PixelMode.RGB ∧ mode1 ≠ PixelMode.CMYK
  let mode2 := if flatten then PixelMode.RGB else if coerce then PixelMode.RGB else mode1
  let modified3 := if flatten then true else if coerce then true else modified2
  if modified3 = false ∧ current_filter = some PName.DCTDecode then
    (raw_data, width1, height1, mode2)
  else
    let icc := img.icc_profile
    if mode2 = PixelMode.CMYK then
      (codec.encodeJPEG mode2 width1 height1 quality true icc, width1, height1, mode2)
    else
      (codec.encodeJPEG mode2 width1 height1 quality false icc, width1, height1, mode2)

/-- A descendant-font dictionary as `is_type0_font_broken` probes it: the
`/Subtype` and `/Type` name values, and presence flags for the other keys the
code tests with `get`/`in`. -/
structure DescDict where
  subtype : Option PName
  dtype : Option PName
  baseFont : Bool
  creationDate : Bool
  modDate : Bool
  producer : Bool
  hasFilter : Bool
  hasLength : Bool
  hasDescendantFonts : Bool
  hasCIDSystemInfo : Bool
  hasW : Bool
deriving DecidableEq, Repr

/-- One element of the `/DescendantFonts` array: Python `None`, an object
without a dictionary interface (`not hasattr(d, "get")`), or a dictionary. -/
inductive Descendant where
  | null
  | nonDict
  | dict (d : DescDict)
deriving DecidableEq, Repr

/-- The `/DescendantFonts` value: either not iterable
(`not hasattr(desc, "__iter__")`) or an array of entries. -/
inductive DescArray where
  | notIterable
  | arr (l : List Descendant)
deriving DecidableEq, Repr

/-- A font dictionary as `is_type0_font_broken` sees it. -/
structure Font where
  subtype : Option PName
  descendantFonts : Option DescArray
deriving DecidableEq, Repr

/-- The body of the `for d in desc` loop of `is_type0_font_broken`
(`src/pdf_chunker/images.py` lines 40-99): `true` means the entry makes the
font broken (`return True`), `false` means this entry is acceptable and the
loop continues with the next entry. -/
def descendant_broken : Descendant → Bool
  | Descendant.null => true
  | Descendant.nonDict => true
  | Descendant.dict d =>
    if d.subtype = some PName.CIDFontType0 ∨ d.subtype = some PName.CIDFontType2 then
      !d.baseFont
    else if d.subtype = some PName.CIDFontType0C then true
    else if d.subtype = some PName.Image then true
    else if d.subtype = some PName.TrueType then true
    else if d.subtype = some PName.Type0 then true
    else if d.dtype = some PName.Page then true
    else if d.dtype = some PName.XObject then true
    else if d.creationDate ∨ d.modDate ∨ d.producer then true
    else if d.hasFilter ∧ d.hasLength ∧ !d.baseFont then true
    else if d.hasDescendantFonts then true
    else if d.subtype = none ∧ !d.hasCIDSystemInfo ∧ !d.hasW ∧ !d.baseFont then true
    else false

/-- `is_type0_font_broken` (`src/pdf_chunker/images.py` lines 11-101). -/
def is_type0_font_broken (font : Font) : Bool :=
  if font.subtype ≠ some PName.Type0 then false
  else
    match font.descendantFonts with
    | none => true
    | some DescArray.notIterable => true
    | some (DescArray.arr l) => l.any descendant_broken

/-- `remove_broken_fonts` (`src/pdf_chunker/images.py` lines 104-126): the
page's font table is an association list; the broken entries are deleted and
their count returned. -/
def remove_broken_fonts (fonts : List (String × Font)) : List (String × Font) × Nat :=
  let broken_fonts := fonts.filter (fun e => is_type0_font_broken e.2)
  (fonts.filter (fun e => !is_type0_font_broken e.2), broken_fonts.length)

/-- A page as `process_page_images` sees it: the `page.images` mapping and the
`page.Resources./Font` mapping, both as association lists. -/
structure PPage where
  images : List (String × ImgObj)
  fonts : List (String × Font)
deriving DecidableEq, Repr

/-- Observable calls made by `process_page_images`, in program order: the skip
of an unsupported filter, a successful `optimize_image` call, the
`remove_broken_fonts(page)` call, and a caught-and-logged per-image failure. -/
inductive PEvent where
  | skippedUnsupported (name : String)
  | optimizedImage (name : String)
  | fontSanitize
  | failed (name : String)
deriving DecidableEq, Repr

/-- The `for name, image_obj in page.images.items()` loop of
`process_page_images` (`src/pdf_chunker/images.py` lines 211-248), threading
the page's font table (mutated by the `remove_broken_fonts(page)` call at line
245, which sits inside the loop, after each successful image write).
An entry with `fails = true` models the `except Exception` path: the exception
is caught, the resource is left as it was, and the loop continues. -/
def processImages (codec : Codec) (max_dim : Nat) :
    List (String × ImgObj) → List (String × Font) →
    List (String × ImgObj) × List (String × Font) × List PEvent
  | [], fonts => ([], fonts, [])
  | (name, image_obj) :: rest, fonts =>
    if ¬(image_obj.filter = some PName.DCTDecode ∨ image_obj.filter = some PName.FlateDecode) then
      let r := processImages codec max_dim rest fonts
      ((name, image_obj) :: r.1, r.2.1, PEvent.skippedUnsupported name :: r.2.2)
    else if image_obj.fails then
      let r := processImages codec max_dim rest fonts
      ((name, image_obj) :: r.1, r.2.1, PEvent.failed name :: r.2.2)
    else
      let o := optimize_image codec image_obj 75 max_dim
      let image_obj1 : ImgObj :=
        { image_obj with
          raw_data := o.1, width := o.2.1, height := o.2.2.1, mode := o.2.2.2,
          filter := some PName.DCTDecode, colorSpace := some PName.DeviceRGB,
          bitsPerComponent := 8, decodePresent := false, decodeParmsPresent := false }
      let fonts1 := (remove_broken_fonts fonts).1
      let r := processImages codec max_dim rest fonts1
      ((name, image_obj1) :: r.1, r.2.1,
        PEvent.optimizedImage name :: PEvent.fontSanitize :: r.2.2)

/-- `process_page_images` on a page: final page state plus the event trace. -/
def process_page_images (codec : Codec) (page : PPage) (max_dim : Nat) :
    PPage × List PEvent :=
  let r := processImages codec max_dim page.images page.fonts
  (⟨r.1, r.2.1⟩, r.2.2)

/-- `MAX_CHUNK_SIZE = 4.0 * 1024 * 1024` (`src/pdf_chunker/core.py` line 9);
the float value is the exact integer 4194304 bytes. -/
def MAX_CHUNK_SIZE : Nat := 4 * 1024 * 1024

/-- Outcome of one `chunk_pdf` run: the Python return value (`True`/`False`)
and the chunks written to disk, each as its list of pages in order.  On the
failure path the chunks already saved stay on disk. -/
structure ChunkRun (Page : Type) where
  ok : Bool
  chunks : List (List Page)
deriving Repr

/-- The `while i < total_pages` loop of `chunk_pdf`
(`src/pdf_chunker/core.py` lines 41-93) followed by the final save (lines
87-91) and `return True`.

`remaining` is `pages[i:]`, `current` the pages of `current_chunk`, `saved`
the chunks already written to disk.  The external pikepdf serialization
(`get_pdf_size`, which `save` also performs) is an arbitrary function of the
chunk's page list; `compress` is the in-place effect of
`process_page_images(current_chunk, target_page)` on the chunk's single page.
The `continue` after a multi-page flush re-enters the loop with the same page
(the cursor `i` is not advanced). -/
def chunkLoop {Page : Type} (get_pdf_size : List Page → Nat) (compress : Page → Page)
    (budget : Nat) (remaining current : List Page) (saved : List (List Page)) :
    ChunkRun Page :=
  match remaining with
  | [] =>
    if 0 < current.length then ⟨true, saved ++ [current]⟩ else ⟨true, saved⟩
  | page :: rest =>
    let current1 := current ++ [page]
    let current_size := get_pdf_size current1
    if budget < current_size then
      if 1 < current1.length then
        chunkLoop get_pdf_size compress budget (page :: rest) [] (saved ++ [current])
      else
        let compressed := compress page
        let compressed_size := get_pdf_size [compressed]
        if budget < compressed_size then ⟨false, saved⟩
        else chunkLoop get_pdf_size compress budget rest [] (saved ++ [[compressed]])
    else
      chunkLoop get_pdf_size compress budget rest current1 saved
termination_by remaining.length * 2 + min current.length 1
decreasing_by
  all_goals simp_wf
  all_goals (try unfold current1 at *)
  all_goals (try simp only [List.length_append, List.length_cons, List.length_nil] at *)
  all_goals omega

/-- `chunk_pdf` (`src/pdf_chunker/core.py` lines 19-93), starting from an
empty chunk and no saved output. -/
def chunk_pdf {Page : Type} (get_pdf_size : List Page → Nat) (compress : Page → Page)
    (budget : Nat) (pages : List Page) : ChunkRun Page :=
  chunkLoop get_pdf_size compress budget pages [] []

/-- Loop invariant: if every already-saved chunk is within budget and the
in-progress chunk is empty or within budget, then every chunk in the final
output is within budget. -/
theorem chunkLoop_chunks_bounded {Page : Type} (gps : List Page → Nat) (compress : Page → Page)
    (budget : Nat) :
    ∀ (remaining current : List Page) (saved : List (List Page)),
      (∀ c ∈ saved, gps c ≤ budget) → (current = [] ∨ gps current ≤ budget) →
      ∀ c ∈ (chunkLoop gps compress budget remaining current saved).chunks, gps c ≤ budget := by
  intro remaining current saved
  induction remaining, current, saved using chunkLoop.induct gps compress budget with
  | case1 current saved h =>
    intro hsaved hcur c hc
    rw [chunkLoop] at hc
    rw [if_pos h] at hc
    rcases List.mem_append.mp hc with h1 | h1
    · exact hsaved c h1
    · rcases hcur with h2 | h2
      · subst h2; simp at h
      · simpa [List.mem_singleton.mp h1] using h2
  | case2 current saved h =>
    intro hsaved hcur c hc
    rw [chunkLoop] at hc
    rw [if_neg h] at hc
    exact hsaved c hc
  | case3 current saved page rest current1 current_size h1 h2 ih =>
    intro hsaved hcur c hc
    unfold current_size at h1
    unfold current1 at h1 h2
    rw [chunkLoop] at hc
    rw [if_pos h1, if_pos h2] at hc
    refine ih ?_ (Or.inl rfl) c hc
    intro d hd
    rcases List.mem_append.mp hd with h3 | h3
    · exact hsaved d h3
    · rcases hcur with h4 | h4
      · exfalso; subst h4; simp at h2
      · simpa [List.mem_singleton.mp h3] using h4
  | case4 current saved page rest current1 current_size h1 h2 compressed compressed_size h3 =>
    intro hsaved hcur c hc
    unfold current_size at h1
    unfold current1 at h1 h2
    unfold compressed_size at h3
    unfold compressed at h3
    rw [chunkLoop] at hc
    rw [if_pos h1, if_neg h2, if_pos h3] at hc
    exact hsaved c hc
  | case5 current saved page rest current1 current_size h1 h2 compressed compressed_size h3 ih =>
    intro hsaved hcur c hc
    unfold current_size at h1
    unfold current1 at h1 h2
    unfold compressed_size at h3
    unfold compressed at h3
    rw [chunkLoop] at hc
    rw [if_pos h1, if_neg h2, if_neg h3] at hc
    refine ih ?_ (Or.inl rfl) c hc
    intro d hd
    rcases List.mem_append.mp hd with h4 | h4
    · exact hsaved d h4
    · rw [List.mem_singleton.mp h4]
      exact Nat.le_of_not_lt h3
  | case6 current saved page rest current1 current_size h1 ih =>
    intro hsaved hcur c hc
    unfold current_size at h1
    unfold current1 at h1 ih
    rw [chunkLoop] at hc
    rw [if_neg h1] at hc
    refine ih ?_ ?_ c hc
    · exact hsaved
    · exact Or.inr (Nat.le_of_not_lt h1)

/-- If the loop reports failure, some page in the remaining input is over
budget on its own and still over budget after compression. -/
theorem chunkLoop_fail_page {Page : Type} (gps : List Page → Nat) (compress : Page → Page)
    (budget : Nat) :
    ∀ (remaining current : List Page) (saved : List (List Page)),
      (chunkLoop gps compress budget remaining current saved).ok = false →
      ∃ p ∈ remaining, budget < gps [p] ∧ budget < gps [compress p] := by
  intro remaining current saved
  induction remaining, current, saved using chunkLoop.induct gps compress budget with
  | case1 current saved h =>
    intro hok
    rw [chunkLoop] at hok
    rw [if_pos h] at hok
    simp at hok
  | case2 current saved h =>
    intro hok
    rw [chunkLoop] at hok
    rw [if_neg h] at hok
    simp at hok
  | case3 current saved page rest current1 current_size h1 h2 ih =>
    intro hok
    unfold current_size at h1
    unfold current1 at h1 h2
    rw [chunkLoop] at hok
    rw [if_pos h1, if_pos h2] at hok
    exact ih hok
  | case4 current saved page rest current1 current_size h1 h2 compressed compressed_size h3 =>
    intro hok
    unfold current_size at h1
    unfold current1 at h1 h2
    unfold compressed_size at h3
    unfold compressed at h3
    have hcur : current = [] := by
      refine List.eq_nil_of_length_eq_zero ?_
      simp only [List.length_append, List.length_cons, List.length_nil] at h2
      omega
    refine ⟨page, List.mem_cons_self page rest, ?_, h3⟩
    simpa [hcur] using h1
  | case5 current saved page rest current1 current_size h1 h2 compressed compressed_size h3 ih =>
    intro hok
    unfold current_size at h1
    unfold current1 at h1 h2
    unfold compressed_size at h3
    unfold compressed at h3
    rw [chunkLoop] at hok
    rw [if_pos h1, if_neg h2, if_neg h3] at hok
    obtain ⟨p, hp, hs⟩ := ih hok
    exact ⟨p, List.mem_cons_of_mem page hp, hs⟩
  | case6 current saved page rest current1 current_size h1 ih =>
    intro hok
    unfold current_size at h1
    unfold current1 at h1 ih
    rw [chunkLoop] at hok
    rw [if_neg h1] at hok
    obtain ⟨p, hp, hs⟩ := ih hok
    exact ⟨p, List.mem_cons_of_mem page hp, hs⟩

/-- C1: For every input document and every run of chunk_pdf, each chunk saved
to disk has serialized byte size ≤ Budget; on the failure path — a single page
that after compression still serializes above Budget — that page's chunk is
never saved (its size exceeds the budget, and every saved chunk is within it)
and the run reports failure (`ok = false`), while chunks saved earlier in the
run are kept (they are the `chunks` field of the failing run, and all satisfy
the bound). -/
theorem c1_saved_chunks_bounded {Page : Type} (gps : List Page → Nat) (compress : Page → Page)
    (budget : Nat) (pages : List Page) :
    (∀ c ∈ (chunk_pdf gps compress budget pages).chunks, gps c ≤ budget) ∧
    ((chunk_pdf gps compress budget pages).ok = false →
      ∃ p ∈ pages, budget < gps [p] ∧ budget < gps [compress p]) :=
  ⟨chunkLoop_chunks_bounded gps compress budget pages [] [] (by simp) (Or.inl rfl),
   fun h => chunkLoop_fail_page gps compress budget pages [] [] h⟩

/-- Witness for C1 at a concrete failing run: one page of serialized size 1
against budget 0, with compression the identity. -/
theorem c1_saved_chunks_bounded_witness :
    (∀ c ∈ (chunk_pdf (fun l : List Nat => l.length) (fun p => p) 0 [7]).chunks,
      (fun l : List Nat => l.length) c ≤ 0) ∧
    (∃ p ∈ [7], 0 < List.length [p] ∧ 0 < List.length [(fun p : Nat => p) p]) :=
  ⟨(c1_saved_chunks_bounded (fun l : List Nat => l.length) (fun p => p) 0 [7]).1,
   (c1_saved_chunks_bounded (fun l : List Nat => l.length) (fun p => p) 0 [7]).2
     (by simp [chunk_pdf, chunkLoop])⟩

/-- On a successful run, joining the saved chunks yields the not-yet-placed
prefix-closed tail: each remaining page appears in order, either unchanged or
as its compressed version. -/
theorem chunkLoop_join_pages {Page : Type} (gps : List Page → Nat) (compress : Page → Page)
    (budget : Nat) :
    ∀ (remaining current : List Page) (saved : List (List Page)),
      (chunkLoop gps compress budget remaining current saved).ok = true →
      ∃ tail, (chunkLoop gps compress budget remaining current saved).chunks.flatten =
          saved.flatten ++ (current ++ tail) ∧
        List.Forall₂ (fun p q => q = p ∨ q = compress p) remaining tail := by
  intro remaining current saved
  induction remaining, current, saved using chunkLoop.induct gps compress budget with
  | case1 current saved h =>
    intro _
    refine ⟨[], ?_, List.Forall₂.nil⟩
    rw [chunkLoop]
    rw [if_pos h]
    simp
  | case2 current saved h =>
    intro _
    have hcur : current = [] := by
      refine List.eq_nil_of_length_eq_zero ?_
      omega
    refine ⟨[], ?_, List.Forall₂.nil⟩
    rw [chunkLoop]
    rw [if_neg h]
    simp [hcur]
  | case3 current saved page rest current1 current_size h1 h2 ih =>
    intro hok
    unfold current_size at h1
    unfold current1 at h1 h2
    rw [chunkLoop] at hok ⊢
    rw [if_pos h1, if_pos h2] at hok ⊢
    obtain ⟨tail, hj, hrel⟩ := ih hok
    refine ⟨tail, ?_, hrel⟩
    rw [hj]
    simp
  | case4 current saved page rest current1 current_size h1 h2 compressed compressed_size h3 =>
    intro hok
    unfold current_size at h1
    unfold current1 at h1 h2
    unfold compressed_size at h3
    unfold compressed at h3
    rw [chunkLoop] at hok
    rw [if_pos h1, if_neg h2, if_pos h3] at hok
    simp at hok
  | case5 current saved page rest current1 current_size h1 h2 compressed compressed_size h3 ih =>
    intro hok
    unfold current_size at h1
    unfold current1 at h1 h2
    unfold compressed_size at h3
    unfold compressed at h3
    have hcur : current = [] := by
      refine List.eq_nil_of_length_eq_zero ?_
      simp only [List.length_append, List.length_cons, List.length_nil] at h2
      omega
    rw [chunkLoop] at hok ⊢
    rw [if_pos h1, if_neg h2, if_neg h3] at hok ⊢
    obtain ⟨tail, hj, hrel⟩ := ih hok
    refine ⟨compress page :: tail, ?_, List.Forall₂.cons (Or.inr rfl) hrel⟩
    rw [hj]
    simp [hcur]
  | case6 current saved page rest current1 current_size h1 ih =>
    intro hok
    unfold current_size at h1
    unfold current1 at h1 ih
    rw [chunkLoop] at hok ⊢
    rw [if_neg h1] at hok ⊢
    obtain ⟨tail, hj, hrel⟩ := ih hok
    refine ⟨page :: tail, ?_, List.Forall₂.cons (Or.inl rfl) hrel⟩
    rw [hj]
    simp

/-- C2: On every run that completes successfully, concatenating the page
sequences of all saved chunks in save order reproduces the source document's
page order exactly — position by position, each saved page is the
corresponding source page (possibly after the in-place image recompression of
the single-page fallback, modelled by `compress`), with no page duplicated,
dropped, or reordered; after a multi-page chunk overflows and is flushed, the
cursor is not advanced, so the same page seeds the next chunk (the flush
branch of `chunkLoop` recurses on `page :: rest`). -/
theorem c2_page_order_preserved {Page : Type} (gps : List Page → Nat) (compress : Page → Page)
    (budget : Nat) (pages : List Page)
    (h : (chunk_pdf gps compress budget pages).ok = true) :
    List.Forall₂ (fun p q => q = p ∨ q = compress p) pages
      (chunk_pdf gps compress budget pages).chunks.flatten := by
  obtain ⟨tail, hj, hrel⟩ := chunkLoop_join_pages gps compress budget pages [] [] h
  rw [chunk_pdf]
  rw [hj]
  simpa using hrel

/-- Witness for C2 at a concrete successful run: serialized size is the page
count, budget 2, three pages; the saved chunks are `[[1, 2], [3]]`. -/
theorem c2_page_order_preserved_witness :
    List.Forall₂ (fun p q => q = p ∨ q = (fun x : Nat => x) p) [1, 2, 3]
      (chunk_pdf (fun l : List Nat => l.length) (fun x => x) 2 [1, 2, 3]).chunks.flatten :=
  c2_page_order_preserved (fun l => l.length) (fun x => x) 2 [1, 2, 3]
    (by simp [chunk_pdf, chunkLoop])

/-- C4: `needs_inversion` returns true exactly when the resource's compression
kind is DCT-JPEG, the Adobe APP14 marker scan reports the marker present, and
the reported transform flag equals 0 or 2; it returns false in every other
case (not DCT-JPEG, marker absent, transform 1 — and any other transform
value, including a missing transform byte), covering the whole truth table. -/
theorem c4_needs_inversion_iff (img : ImgObj) :
    needs_inversion img = true ↔
      (img.filter = some PName.DCTDecode ∧
        (has_adobe_app14_marker img.raw_data).1 = true ∧
        ((has_adobe_app14_marker img.raw_data).2 = some 0 ∨
          (has_adobe_app14_marker img.raw_data).2 = some 2)) := by
  by_cases h : img.filter = some PName.DCTDecode
  · simp [needs_inversion, h]
  · simp [needs_inversion, h]

/-- Buffer whose first (and only) `0xFF 0xEE` is followed by a complete
`Adobe` signature but ends right after it: the transform byte at offset
`start + 11` lies past the end. -/
def truncatedAdobe : List Nat := [0xff, 0xee, 0, 0, 0x41, 0x64, 0x6f, 0x62, 0x65]

/-- C5 counterexample: on a buffer truncated so that the transform byte (but
not the signature) lies past the end, the scan reports the marker as present
with a missing transform, `(true, none)` — not "no marker" as the claim
states. -/
theorem c5_counterexample :
    has_adobe_app14_marker truncatedAdobe = (true, none) ∧
    has_adobe_app14_marker truncatedAdobe ≠ (false, none) := by
  decide

/-- C5 (amended): the transform flag is read as the single byte 11 positions
past the start of the 5-byte `Adobe` signature, which starts 4 bytes after the
first `0xFF 0xEE`; when the signature lies (partly) past the end of the buffer
the slice comparison fails and the scan reports "no marker"; when only the
transform byte lies past the end the scan reports the marker present with
transform `none`. -/
theorem c5_marker_scan (data : List Nat) :
    (findAdobeMarker data = none → has_adobe_app14_marker data = (false, none)) ∧
    (∀ idx, findAdobeMarker data = some idx →
      (((data.drop (idx + 4)).take 5 ≠ adobeSig →
          has_adobe_app14_marker data = (false, none)) ∧
        ((data.drop (idx + 4)).take 5 = adobeSig → idx + 4 + 11 < data.length →
          has_adobe_app14_marker data = (true, some (data.getD (idx + 4 + 11) 0))) ∧
        ((data.drop (idx + 4)).take 5 = adobeSig → data.length ≤ idx + 4 + 11 →
          has_adobe_app14_marker data = (true, none)))) := by
  constructor
  · intro h
    simp [has_adobe_app14_marker, h]
  · intro idx h
    refine ⟨?_, ?_, ?_⟩
    · intro hsig
      simp [has_adobe_app14_marker, h, hsig]
    · intro hsig hlen
      simp [has_adobe_app14_marker, h, hsig, hlen]
    · intro hsig hlen
      simp [has_adobe_app14_marker, h, hsig, Nat.not_lt.mpr hlen]

/-- A complete APP14 segment: marker, 2 length bytes, `Adobe`, version/flag
bytes, and the transform byte 2 at offset 15. -/
def fullAdobe : List Nat :=
  [0xff, 0xee, 0, 0, 0x41, 0x64, 0x6f, 0x62, 0x65, 0, 0, 0, 0, 0, 0, 2]

/-- Witness for C5's amended claim on a complete marker segment. -/
theorem c5_marker_scan_witness : has_adobe_app14_marker fullAdobe = (true, some 2) :=
  ((c5_marker_scan fullAdobe).2 0 rfl).2.1 rfl (by decide)

/-- C10: the scan inspects only the first occurrence of `0xFF 0xEE`; if the 5
bytes starting 4 past that occurrence are not `Adobe`, the scan reports "no
marker" (it never looks for a later occurrence), and `needs_inversion` is
consequently false for such buffers. -/
theorem c10_first_marker_only (img : ImgObj) (idx : Nat)
    (hfind : findAdobeMarker img.raw_data = some idx)
    (hsig : (img.raw_data.drop (idx + 4)).take 5 ≠ adobeSig) :
    has_adobe_app14_marker img.raw_data = (false, none) ∧ needs_inversion img = false := by
  have hm : has_adobe_app14_marker img.raw_data = (false, none) := by
    simp [has_adobe_app14_marker, hfind, hsig]
  refine ⟨hm, ?_⟩
  by_cases h : img.filter = some PName.DCTDecode
  · simp [needs_inversion, h, hm]
  · simp [needs_inversion, h]

/-- Buffer with two `0xFF 0xEE` occurrences: the first (offset 0) is not
followed by `Adobe`, the second (offset 6) is followed by a valid `Adobe`
signature with transform byte 0 in range. -/
def twoMarkerData : List Nat :=
  [0xff, 0xee, 0, 0, 0x58, 0, 0xff, 0xee, 0, 0,
   0x41, 0x64, 0x6f, 0x62, 0x65, 0, 0, 0, 0, 0, 0, 0]

/-- A DCT-JPEG image resource whose bytes are `twoMarkerData`. -/
def imgTwoMarkers : ImgObj :=
  { filter := some PName.DCTDecode, raw_data := twoMarkerData, mode := PixelMode.CMYK,
    width := 10, height := 10, icc_profile := none, colorSpace := none,
    bitsPerComponent := 8, decodePresent := false, decodeParmsPresent := false,
    fails := false }

/-- Witness for C10: the later occurrence at offset 6 carries a valid `Adobe`
signature, yet the scan (looking only at offset 0) reports no marker and
`needs_inversion` is false. -/
theorem c10_first_marker_only_witness :
    (twoMarkerData.drop (6 + 4)).take 5 = adobeSig ∧
    (has_adobe_app14_marker twoMarkerData = (false, none) ∧
      needs_inversion imgTwoMarkers = false) :=
  ⟨by decide, c10_first_marker_only imgTwoMarkers 0 (by decide) (by decide)⟩

/-- A concrete trivial codec instance for witnesses: the encoder result is
irrelevant to the properties checked. -/
def trivCodec : Codec := ⟨fun _ _ _ _ _ _ => []⟩

/-- C6: an image resource whose decoded mode is already RGB, whose longer edge
does not exceed `max_dim`, and whose compression kind is DCT-JPEG passes
through `optimize_image` unchanged: the output bytes are byte-for-byte its
input bytes (no step marks it modified, so the re-encode is skipped). -/
theorem c6_short_circuit (codec : Codec) (img : ImgObj) (quality max_dim : Nat)
    (hmode : img.mode = PixelMode.RGB)
    (hdim : max img.width img.height ≤ max_dim)
    (hfilter : img.filter = some PName.DCTDecode) :
    optimize_image codec img quality max_dim =
      (img.raw_data, img.width, img.height, PixelMode.RGB) := by
  have hnr : ¬(max_dim ≠ 0 ∧ max_dim < max img.width img.height) := by
    rintro ⟨-, hlt⟩
    omega
  obtain ⟨hw, hh⟩ := Nat.max_le.mp hdim
  have hnw : ¬max_dim < img.width := Nat.not_lt.mpr hw
  have hnh : ¬max_dim < img.height := Nat.not_lt.mpr hh
  simp [optimize_image, hmode, hfilter, hnr, hnw, hnh]

/-- A small already-RGB DCT-JPEG image resource. -/
def rgbSmallImg : ImgObj :=
  { filter := some PName.DCTDecode, raw_data := [1, 2, 3], mode := PixelMode.RGB,
    width := 100, height := 50, icc_profile := none, colorSpace := some PName.DeviceRGB,
    bitsPerComponent := 8, decodePresent := false, decodeParmsPresent := false,
    fails := false }

/-- Witness for C6 at a concrete 100x50 RGB JPEG under the 1500 cap. -/
theorem c6_short_circuit_witness :
    optimize_image trivCodec rgbSmallImg 60 1500 = ([1, 2, 3], 100, 50, PixelMode.RGB) :=
  c6_short_circuit trivCodec rgbSmallImg 60 1500 rfl (by decide) rfl

/-- The width component of the optimizer's output is the (possibly resized)
PIL width. -/
theorem optimize_image_width (codec : Codec) (img : ImgObj) (quality max_dim : Nat) :
    (optimize_image codec img quality max_dim).2.1 =
      if max_dim ≠ 0 ∧ max_dim < max img.width img.height
      then pyScaledDim img.width max_dim (max img.width img.height) else img.width := by
  simp only [optimize_image]
  split_ifs <;> rfl

/-- The height component of the optimizer's output is the (possibly resized)
PIL height. -/
theorem optimize_image_height (codec : Codec) (img : ImgObj) (quality max_dim : Nat) :
    (optimize_image codec img quality max_dim).2.2.1 =
      if max_dim ≠ 0 ∧ max_dim < max img.width img.height
      then pyScaledDim img.height max_dim (max img.width img.height) else img.height := by
  simp only [optimize_image]
  split_ifs <;> rfl

/-- C7 (amended): when the longer edge exceeds `max_dim`, both dimensions are
scaled proportionally, each new dimension computed as
`int(old * (max_dim / m))` in IEEE binary64 arithmetic (two roundings, then
truncation toward zero) — `pyScaledDim`; for `max_dim ≤ 2 ^ 51` (far beyond
any real image) each new dimension is within one pixel of the exact
proportional value `old * max_dim / m`, and the dimension that was the longer
edge becomes `max_dim` or `max_dim - 1`; images whose longer edge is at most
`max_dim` keep their dimensions. -/
theorem c7_resize_truncated (codec : Codec) (img : ImgObj) (quality max_dim : Nat) :
    (max_dim ≠ 0 → max_dim < max img.width img.height →
      ((optimize_image codec img quality max_dim).2.1 =
          pyScaledDim img.width max_dim (max img.width img.height) ∧
        (optimize_image codec img quality max_dim).2.2.1 =
          pyScaledDim img.height max_dim (max img.width img.height)) ∧
      (max_dim ≤ 2 ^ 51 →
        (img.width * max_dim / max img.width img.height ≤
            (optimize_image codec img quality max_dim).2.1 + 1 ∧
          (optimize_image codec img quality max_dim).2.1 ≤
            img.width * max_dim / max img.width img.height + 1) ∧
        (img.height * max_dim / max img.width img.height ≤
            (optimize_image codec img quality max_dim).2.2.1 + 1 ∧
          (optimize_image codec img quality max_dim).2.2.1 ≤
            img.height * max_dim / max img.width img.height + 1) ∧
        (img.width = max img.width img.height →
          (optimize_image codec img quality max_dim).2.1 = max_dim ∨
          (optimize_image codec img quality max_dim).2.1 = max_dim - 1) ∧
        (img.height = max img.width img.height →
          (optimize_image codec img quality max_dim).2.2.1 = max_dim ∨
          (optimize_image codec img quality max_dim).2.2.1 = max_dim - 1))) ∧
    (max img.width img.height ≤ max_dim →
      (optimize_image codec img quality max_dim).2.1 = img.width ∧
      (optimize_image codec img quality max_dim).2.2.1 = img.height) := by
  constructor
  · intro h0 hbig
    have hcond : max_dim ≠ 0 ∧ max_dim < max img.width img.height := ⟨h0, hbig⟩
    have hw : (optimize_image codec img quality max_dim).2.1 =
        pyScaledDim img.width max_dim (max img.width img.height) := by
      rw [optimize_image_width, if_pos hcond]
    have hh : (optimize_image codec img quality max_dim).2.2.1 =
        pyScaledDim img.height max_dim (max img.width img.height) := by
      rw [optimize_image_height, if_pos hcond]
    refine ⟨⟨hw, hh⟩, ?_⟩
    intro hrange
    have hm : 0 < max img.width img.height := Nat.lt_of_le_of_lt (Nat.zero_le _) hbig
    have hd : 0 < max_dim := Nat.pos_of_ne_zero h0
    have bw := pyScaledDim_bounds img.width max_dim (max img.width img.height) hm hd
      (le_max_left _ _) hrange
    have bh := pyScaledDim_bounds img.height max_dim (max img.width img.height) hm hd
      (le_max_right _ _) hrange
    refine ⟨?_, ?_, ?_, ?_⟩
    · rw [hw]
      exact bw
    · rw [hh]
      exact bh
    · intro hweq
      have he : pyScaledDim img.width max_dim (max img.width img.height) =
          pyScaledDim (max img.width img.height) max_dim (max img.width img.height) :=
        congrArg (fun z => pyScaledDim z max_dim (max img.width img.height)) hweq
      rw [hw, he]
      exact pyScaledDim_longer max_dim (max img.width img.height) hm hd hrange
    · intro hheq
      have he : pyScaledDim img.height max_dim (max img.width img.height) =
          pyScaledDim (max img.width img.height) max_dim (max img.width img.height) :=
        congrArg (fun z => pyScaledDim z max_dim (max img.width img.height)) hheq
      rw [hh, he]
      exact pyScaledDim_longer max_dim (max img.width img.height) hm hd hrange
  · intro hsmall
    have hcond : ¬(max_dim ≠ 0 ∧ max_dim < max img.width img.height) := by
      rintro ⟨-, hlt⟩
      omega
    constructor
    · rw [optimize_image_width, if_neg hcond]
    · rw [optimize_image_height, if_neg hcond]

/-- A 999x1600 RGB DCT-JPEG image: scaling by 1500/1600 gives the exact width
999 * 15 / 16 = 936.5625. -/
def img999 : ImgObj :=
  { filter := some PName.DCTDecode, raw_data := [], mode := PixelMode.RGB,
    width := 999, height := 1600, icc_profile := none, colorSpace := none,
    bitsPerComponent := 8, decodePresent := false, decodeParmsPresent := false,
    fails := false }

/-- Rounding a scaled dimension `w * max_dim / m` to the nearest integer (ties
up), as the claim's words prescribe: `(2 * (w * max_dim) + m) / (2 * m)`.
Modelled from the spec: the claim's "rounded to the nearest integer pixel". -/
def nearestScaled (w max_dim m : Nat) : Nat := (2 * (w * max_dim) + m) / (2 * m)

/-- The program's width at the counterexample input: both intermediate
binary64 values (15/16 and 999 * 15/16 = 936.5625) are dyadic with small
numerators, hence exactly representable, so the float computation is exact
here and truncation yields 936. -/
theorem pyScaledDim_999 : pyScaledDim 999 1500 1600 = 936 := by
  unfold pyScaledDim
  have h1 : ((1500:ℕ):ℚ) / ((1600:ℕ):ℚ) = ((15:ℕ):ℚ) / 2 ^ (4:ℕ) := by
    push_cast
    norm_num
  rw [h1, fl64_dyadic 15 4 (by norm_num) (by norm_num)]
  have h2 : ((999:ℕ):ℚ) * (((15:ℕ):ℚ) / 2 ^ (4:ℕ)) = ((14985:ℕ):ℚ) / 2 ^ (4:ℕ) := by
    push_cast
    norm_num
  rw [h2, fl64_dyadic 14985 4 (by norm_num) (by norm_num)]
  apply pyTrunc_eq
  · positivity
  · norm_num
  · norm_num

/-- C7 counterexample: at 999x1600 capped to 1500, the scaled width is exactly
936.5625 (the float arithmetic is exact here: 1500/1600 = 0.9375 and
999 * 0.9375 = 936.5625 are dyadic); the code truncates to 936 while rounding
to the nearest integer pixel gives 937. -/
theorem c7_counterexample :
    (optimize_image trivCodec img999 75 1500).2.1 = 936 ∧
    nearestScaled 999 1500 1600 = 937 ∧ (936 : Nat) ≠ 937 := by
  refine ⟨?_, by decide, by decide⟩
  rw [optimize_image_width]
  have hmax : max img999.width img999.height = 1600 := by decide
  have hwidth : img999.width = 999 := rfl
  rw [hmax, hwidth]
  rw [if_pos (⟨by decide, by decide⟩ : ((1500:ℕ) ≠ 0 ∧ 1500 < 1600))]
  exact pyScaledDim_999

/-- Witness for C7's amended claim at the 999x1600 image capped at 1500. -/
theorem c7_resize_truncated_witness :
    ((optimize_image trivCodec img999 75 1500).2.1 = pyScaledDim 999 1500 1600 ∧
      (optimize_image trivCodec img999 75 1500).2.2.1 = pyScaledDim 1600 1500 1600) ∧
    ((999 * 1500 / 1600 ≤ (optimize_image trivCodec img999 75 1500).2.1 + 1 ∧
        (optimize_image trivCodec img999 75 1500).2.1 ≤ 999 * 1500 / 1600 + 1) ∧
      ((optimize_image trivCodec img999 75 1500).2.2.1 = 1500 ∨
        (optimize_image trivCodec img999 75 1500).2.2.1 = 1500 - 1)) := by
  have H := (c7_resize_truncated trivCodec img999 75 1500).1 (by decide) (by decide)
  have H2 := H.2 (by norm_num)
  exact ⟨⟨H.1.1, H.1.2⟩, H2.1, H2.2.2.2 (by decide)⟩

/-- The per-entry image effect of one iteration of the
`process_page_images` loop: unsupported filters and failing resources are left
untouched, a successfully optimized resource is rewritten in place. -/
def imageStep (codec : Codec) (max_dim : Nat) (ent : String × ImgObj) : String × ImgObj :=
  if ¬(ent.2.filter = some PName.DCTDecode ∨ ent.2.filter = some PName.FlateDecode) then ent
  else if ent.2.fails then ent
  else
    let o := optimize_image codec ent.2 75 max_dim
    (ent.1,
      { ent.2 with
        raw_data := o.1, width := o.2.1, height := o.2.2.1, mode := o.2.2.2,
        filter := some PName.DCTDecode, colorSpace := some PName.DeviceRGB,
        bitsPerComponent := 8, decodePresent := false, decodeParmsPresent := false })

/-- The events one loop iteration of `process_page_images` emits for one image
entry; the font sanitizer runs exactly once after each successful image write. -/
def eventStep (ent : String × ImgObj) : List PEvent :=
  if ¬(ent.2.filter = some PName.DCTDecode ∨ ent.2.filter = some PName.FlateDecode) then
    [PEvent.skippedUnsupported ent.1]
  else if ent.2.fails then
    [PEvent.failed ent.1]
  else
    [PEvent.optimizedImage ent.1, PEvent.fontSanitize]

/-- The images a page ends up with are the entrywise `imageStep` images: each
entry's outcome is independent of the other entries (and of the font table). -/
theorem processImages_images (codec : Codec) (max_dim : Nat) :
    ∀ (imgs : List (String × ImgObj)) (fonts : List (String × Font)),
      (processImages codec max_dim imgs fonts).1 = imgs.map (imageStep codec max_dim) := by
  intro imgs
  induction imgs with
  | nil => intro fonts; rfl
  | cons ent rest ih =>
    intro fonts
    obtain ⟨name, obj⟩ := ent
    by_cases h1 : obj.filter = some PName.DCTDecode ∨ obj.filter = some PName.FlateDecode
    · by_cases h2 : obj.fails
      · simp [processImages, imageStep, h1, h2, ih]
      · simp [processImages, imageStep, h1, h2, ih]
    · simp [processImages, imageStep, h1, ih]

/-- The event trace of `processImages` is the concatenation of the per-entry
event lists, independent of the font table. -/
theorem processImages_events (codec : Codec) (max_dim : Nat) :
    ∀ (imgs : List (String × ImgObj)) (fonts : List (String × Font)),
      (processImages codec max_dim imgs fonts).2.2 = (imgs.map eventStep).flatten := by
  intro imgs
  induction imgs with
  | nil => intro fonts; rfl
  | cons ent rest ih =>
    intro fonts
    obtain ⟨name, obj⟩ := ent
    by_cases h1 : obj.filter = some PName.DCTDecode ∨ obj.filter = some PName.FlateDecode
    · by_cases h2 : obj.fails
      · simp [processImages, eventStep, h1, h2, ih]
      · simp [processImages, eventStep, h1, h2, ih]
    · simp [processImages, eventStep, h1, ih]

/-- A failing supported resource leaves a `failed` event in the trace. -/
theorem processImages_failed_mem (codec : Codec) (max_dim : Nat)
    (imgs : List (String × ImgObj)) (fonts : List (String × Font))
    (name : String) (obj : ImgObj) (hmem : (name, obj) ∈ imgs)
    (hsupp : obj.filter = some PName.DCTDecode ∨ obj.filter = some PName.FlateDecode)
    (hfails : obj.fails = true) :
    PEvent.failed name ∈ (processImages codec max_dim imgs fonts).2.2 := by
  rw [processImages_events codec max_dim imgs fonts]
  refine List.mem_flatten.mpr ⟨eventStep (name, obj), List.mem_map_of_mem eventStep hmem, ?_⟩
  simp [eventStep, hsupp, hfails]

/-- C9: a failure while processing one image resource is caught and logged (a
`failed` event is emitted), the resource is left unmodified (its `imageStep`
is the identity), and processing continues with the remaining image resources
(the resulting image list is the entrywise map, so no entry's outcome depends
on another's failure); the loop is total, so a per-image failure never aborts
the run. -/
theorem c9_image_failure_isolated (codec : Codec) (max_dim : Nat)
    (imgs : List (String × ImgObj)) (fonts : List (String × Font)) :
    (processImages codec max_dim imgs fonts).1 = imgs.map (imageStep codec max_dim) ∧
    (∀ name obj, (name, obj) ∈ imgs →
      (obj.filter = some PName.DCTDecode ∨ obj.filter = some PName.FlateDecode) →
      obj.fails = true →
      imageStep codec max_dim (name, obj) = (name, obj) ∧
      PEvent.failed name ∈ (processImages codec max_dim imgs fonts).2.2) := by
  refine ⟨processImages_images codec max_dim imgs fonts, ?_⟩
  intro name obj hmem hsupp hfails
  exact ⟨by simp [imageStep, hsupp, hfails],
    processImages_failed_mem codec max_dim imgs fonts name obj hmem hsupp hfails⟩

/-- A supported DCT-JPEG resource whose decode raises. -/
def failImg : ImgObj :=
  { filter := some PName.DCTDecode, raw_data := [9], mode := PixelMode.RGB,
    width := 10, height := 10, icc_profile := none, colorSpace := none,
    bitsPerComponent := 8, decodePresent := false, decodeParmsPresent := false,
    fails := true }

/-- Witness for C9 at a page with a single failing image resource. -/
theorem c9_image_failure_isolated_witness :
    imageStep trivCodec 1500 ("I1", failImg) = ("I1", failImg) ∧
    PEvent.failed "I1" ∈ (processImages trivCodec 1500 [("I1", failImg)] []).2.2 :=
  (c9_image_failure_isolated trivCodec 1500 [("I1", failImg)] []).2 "I1" failImg
    (List.mem_singleton.mpr rfl) (Or.inl rfl) rfl

/-- C3 (amended): on the fallback path, `process_page_images` invokes the
image optimizer on exactly the supported (DCT/Flate) image resources that do
not raise, and invokes the font sanitizer once after each successful image
write — hence zero times when the page has zero supported image resources —
as the event trace shows entry by entry; the size re-probe happens only after
this call returns (the planner computes `compressed_size` after
`process_page_images`, see `chunkLoop`). -/
theorem c3_fallback_events (codec : Codec) (max_dim : Nat) (page : PPage) :
    (process_page_images codec page max_dim).2 = (page.images.map eventStep).flatten := by
  simpa [process_page_images] using
    processImages_events codec max_dim page.images page.fonts

/-- A Type0 font with no `/DescendantFonts` entry: classified broken. -/
def brokenFont0 : Font := ⟨some PName.Type0, none⟩

/-- A fallback page carrying no image resources and one broken font. -/
def pageNoImages : PPage := ⟨[], [("F1", brokenFont0)]⟩

/-- C3 counterexample: on a page with zero (supported) image resources the
font sanitizer is never invoked — the event trace is empty and a font that
the sanitizer would delete survives — contradicting the claim that the
FontSanitizer is invoked on the page even when the page has zero supported
image resources. -/
theorem c3_counterexample :
    is_type0_font_broken brokenFont0 = true ∧
    (process_page_images trivCodec pageNoImages 1500).2 = [] ∧
    (process_page_images trivCodec pageNoImages 1500).1.fonts = [("F1", brokenFont0)] :=
  ⟨rfl, rfl, rfl⟩

/-- C8: a font whose subtype is not Type0 is classified not-broken; a
descendant entry with subtype CIDFontType0 or CIDFontType2 and a base-font
name present is acceptable (that entry does not classify the font broken, the
loop continues), while the same entry lacking a base-font name makes the whole
font classified broken. -/
theorem c8_font_classifier (font : Font) (dd : DescDict) (l : List Descendant) :
    (font.subtype ≠ some PName.Type0 → is_type0_font_broken font = false) ∧
    ((dd.subtype = some PName.CIDFontType0 ∨ dd.subtype = some PName.CIDFontType2) →
      dd.baseFont = true → descendant_broken (Descendant.dict dd) = false) ∧
    ((dd.subtype = some PName.CIDFontType0 ∨ dd.subtype = some PName.CIDFontType2) →
      dd.baseFont = false → font.subtype = some PName.Type0 →
      font.descendantFonts = some (DescArray.arr l) → Descendant.dict dd ∈ l →
      is_type0_font_broken font = true) := by
  refine ⟨?_, ?_, ?_⟩
  · intro h
    simp [is_type0_font_broken, h]
  · intro hsub hbf
    simp [descendant_broken, hsub, hbf]
  · intro hsub hbf hty hdesc hmem
    simp only [is_type0_font_broken, hty, hdesc]
    simp only [ne_eq, not_true_eq_false, if_false]
    refine List.any_eq_true.mpr ⟨Descendant.dict dd, hmem, ?_⟩
    simp [descendant_broken, hsub, hbf]

/-- A well-formed CIDFontType2 descendant entry with a base-font name. -/
def ddGood : DescDict :=
  { subtype := some PName.CIDFontType2, dtype := none, baseFont := true,
    creationDate := false, modDate := false, producer := false,
    hasFilter := false, hasLength := false, hasDescendantFonts := false,
    hasCIDSystemInfo := false, hasW := false }

/-- The same entry with the base-font name removed. -/
def ddBad : DescDict := { ddGood with baseFont := false }

/-- A non-composite (TrueType) font. -/
def fontNonType0 : Font := ⟨some PName.TrueType, none⟩

/-- A Type0 font whose only descendant is `ddBad`. -/
def fontBadDesc : Font := ⟨some PName.Type0, some (DescArray.arr [Descendant.dict ddBad])⟩

/-- Witness for C8 at the three concrete configurations. -/
theorem c8_font_classifier_witness :
    is_type0_font_broken fontNonType0 = false ∧
    descendant_broken (Descendant.dict ddGood) = false ∧
    is_type0_font_broken fontBadDesc = true :=
  ⟨(c8_font_classifier fontNonType0 ddGood []).1 (by decide),
   (c8_font_classifier fontNonType0 ddGood []).2.1 (Or.inr rfl) rfl,
   (c8_font_classifier fontBadDesc ddBad [Descendant.dict ddBad]).2.2 (Or.inr rfl) rfl rfl
     rfl (List.mem_singleton.mpr rfl)⟩

end PdfChunker
